import Mathlib

/-!
Shallow embedding of `pacextractor.c` (PAC firmware container extractor).

The container file is modelled as a `List Nat` of bytes (each byte a value
below 256).  Multi-byte integers are little-endian, matching the `read`-into-
struct decoding on the target platform.  Wide-character fields are arrays of
16-bit code units, each decoded from two consecutive bytes.

Fallible I/O (short reads) is modelled with `Option` / `Except`; a `read`
of `n` bytes at position `p` succeeds exactly when `p + n` bytes are present
in the file, which matches POSIX `read` on a regular file compared against
the requested length as the C source does.  Memory allocation is modelled
as succeeding for any request of at most `PTRDIFF_MAX` bytes and failing
(returning NULL) above that, matching glibc `malloc`, which deterministically
refuses such requests; record buffers (at most 2^32 - 1 bytes) therefore
always allocate, while the driver's `malloc(partitionCount *
sizeof(PartitionHeader*))` fails exactly when the `int`-to-`size_t`
conversion of a negative count produces an enormous request.
-/

namespace PacExtractor

/-- The streaming copy buffer size in `extractPartition`: 256 KiB. -/
def BUFFER_SIZE : Nat := 256 * 1024

/-- Modulus of the 32-bit unsigned arithmetic used for `curPos` (a `uint32_t`). -/
def U32 : Nat := 4294967296

/-- `sizeof(PacHeader)` in the C source: 24*2 + 4 + 256*2 + 256*2 + 4 + 4
+ 5*4 + 50*2 + 6*2 + 2*2 = 1220 bytes (4-byte aligned, no padding). -/
def PAC_HEADER_SIZE : Nat := 1220

/-- `sizeof(PartitionHeader)` in the C source, flexible `dataArray` excluded:
4 + 256*2 + 512*2 + 4 + 2*4 + 4 + 3*4 = 1568 bytes.  This is the minimum
fixed-field size of a partition record. -/
def PARTITION_HEADER_MIN_SIZE : Nat := 1568

/-- `getString`: converts a wide-character field to a narrow string, taking
the low byte of each code unit until a zero code unit (or the end of the
modelled field) is reached.  The C source's bounds check is
`resString - resString > 255`, a pointer subtracted from itself: the
condition is literally `0 > 255` and never fires, which is kept verbatim
here. -/
def getString : List Nat → List Nat
  | [] => []
  | c :: rest =>
    if c = 0 then []
    else (c % 256) :: (if (0 : Int) > 255 then [] else getString rest)

/-- Little-endian 32-bit value assembled from bytes `off .. off+3` of a
buffer, reading 0 for bytes past the end of the buffer (the C source reads
unallocated heap memory there; the modelled content of such bytes is
arbitrary and fixed to 0). -/
def le32At (buf : List Nat) (off : Nat) : Nat :=
  buf.getD off 0 + 256 * buf.getD (off + 1) 0 + 65536 * buf.getD (off + 2) 0 +
    16777216 * buf.getD (off + 3) 0

/-- The same 32-bit field read as a signed `int32_t` (two's complement). -/
def le32SignedAt (buf : List Nat) (off : Nat) : Int :=
  if le32At buf off < 2147483648 then (le32At buf off : Int)
  else (le32At buf off : Int) - 4294967296

/-- A bounded 4-byte read at `off`: succeeds only when all four bytes are
present, as the C source compares the `read` return value against
`sizeof(length)`. -/
def readLE32 (data : List Nat) (off : Nat) : Option Nat :=
  match data.drop off with
  | b0 :: b1 :: b2 :: b3 :: _ => some (b0 + 256 * b1 + 65536 * b2 + 16777216 * b3)
  | _ => none

/-- A run of `count` 16-bit code units starting at byte offset `off`. -/
def readU16List (buf : List Nat) (off count : Nat) : List Nat :=
  (List.range count).map fun i =>
    buf.getD (off + 2 * i) 0 + 256 * buf.getD (off + 2 * i + 1) 0

/-- The fields of `PacHeader` that the program uses, at their C offsets:
`productName` at 52, `firmwareName` at 564, `partitionCount` (signed) at
1076, `partitionsListStart` at 1080. -/
structure PacHeader where
  productName : List Nat
  firmwareName : List Nat
  partitionCount : Int
  partitionsListStart : Nat
deriving DecidableEq

/-- `readPacHeader`: decode the fixed 1220-byte header from the start of the
container.  The driver only calls this after checking the file is at least
`PAC_HEADER_SIZE` bytes long. -/
def readPacHeader (pac : List Nat) : PacHeader :=
  { productName := readU16List pac 52 256
    firmwareName := readU16List pac 564 256
    partitionCount := le32SignedAt pac 1076
    partitionsListStart := le32At pac 1080 }

/-- The fields of `PartitionHeader` that the program uses, at their C
offsets: `length` at 0, `partitionName` (256 units) at 4, `fileName`
(512 units) at 516, `partitionSize` at 1540, `partitionAddrInPac` at 1552. -/
structure PartitionHeader where
  length : Nat
  partitionName : List Nat
  fileName : List Nat
  partitionSize : Nat
  partitionAddrInPac : Nat
deriving DecidableEq

/-- Interpret a record buffer (the `malloc(length)` buffer filled by the
second read) at the fixed `PartitionHeader` field offsets.  When the buffer
is shorter than 1568 bytes the C source reads past the allocation
(undefined behavior); those bytes are modelled as 0. -/
def parseRecord (buf : List Nat) : PartitionHeader :=
  { length := le32At buf 0
    partitionName := readU16List buf 4 256
    fileName := readU16List buf 516 512
    partitionSize := le32At buf 1540
    partitionAddrInPac := le32At buf 1552 }

/-- `readPartitionHeader`: two-phase record read at `curPos`.  Phase 1 reads
the 4-byte length prefix; phase 2 re-seeks to `curPos` and reads the whole
`length`-byte record.  On success the cursor advances to
`curPos + length` (in `uint32_t` arithmetic, so modulo 2^32). -/
def readPartitionHeader (pac : List Nat) (curPos : Nat) :
    Option (PartitionHeader × Nat) :=
  match readLE32 pac curPos with
  | none => none
  | some len =>
    if curPos + len ≤ pac.length then
      some (parseRecord ((pac.drop curPos).take len), (curPos + len) % U32)
    else none

/-- The driver's record-walking loop: read `n` records starting at `pos`,
pairing each record with the offset it was read at.  The whole walk fails
if any single record read fails. -/
def readRecordsFrom (pac : List Nat) : Nat → Nat → Option (List (PartitionHeader × Nat))
  | _, 0 => some []
  | pos, n + 1 =>
    match readPartitionHeader pac pos with
    | none => none
    | some (ph, next) =>
      match readRecordsFrom pac next n with
      | none => none
      | some rest => some ((ph, pos) :: rest)

/-- The streaming copy loop of `extractPartition`.  State mirrors the C
locals: file cursor `pos`, `dataSizeLeft`, `dataSizeRead`, the bytes written
to the output file so far, and the list of `dataSizeRead` values passed to
the progress reporter so far.  Each iteration copies
`min dataSizeLeft BUFFER_SIZE` bytes; a short read aborts the run,
leaving the partial output file as-is (`Except.error` carries it). -/
def extractLoop (pac : List Nat) (pos sizeLeft sizeRead : Nat)
    (file reports : List Nat) :
    Except (List Nat × List Nat) (List Nat × List Nat) :=
  if h : sizeLeft = 0 then .ok (file, reports)
  else
    if pos + min sizeLeft BUFFER_SIZE ≤ pac.length then
      extractLoop pac (pos + min sizeLeft BUFFER_SIZE)
        (sizeLeft - min sizeLeft BUFFER_SIZE)
        (sizeRead + min sizeLeft BUFFER_SIZE)
        (file ++ (pac.drop pos).take (min sizeLeft BUFFER_SIZE))
        (reports ++ [sizeRead + min sizeLeft BUFFER_SIZE])
    else .error (file, reports)
termination_by sizeLeft
decreasing_by
  have hb : 0 < BUFFER_SIZE := by norm_num [BUFFER_SIZE]
  have := Nat.pos_of_ne_zero h
  omega

/-- `extractPartition`: returns immediately when `partitionSize` is 0 (no
output file is touched).  Otherwise it seeks to `partitionAddrInPac`,
truncates/creates the output file, and streams `partitionSize` bytes.
`Except.ok none` is the no-op success; `Except.ok (some (file, reports))`
is a completed copy; `Except.error (file, reports)` is a fatal short read
with the partial output file left in place. -/
def extractPartition (pac : List Nat) (ph : PartitionHeader) :
    Except (List Nat × List Nat) (Option (List Nat × List Nat)) :=
  if ph.partitionSize = 0 then .ok none
  else
    match extractLoop pac ph.partitionAddrInPac ph.partitionSize 0 [] [] with
    | .ok res => .ok (some res)
    | .error e => .error e

/-- The driver's extraction loop over the collected records: the first
failing extraction aborts the process with exit code 1; otherwise exit
code 0. -/
def extractAllCode (pac : List Nat) : List PartitionHeader → Nat
  | [] => 0
  | ph :: rest =>
    match extractPartition pac ph with
    | .error _ => 1
    | .ok _ => extractAllCode pac rest

/-- Modulus of `size_t` arithmetic (LP64). -/
def U64 : Nat := 18446744073709551616

/-- The largest allocation request glibc `malloc` will attempt; anything
larger is refused deterministically. -/
def PTRDIFF_MAX : Nat := 9223372036854775807

/-- Size of the `malloc(pacHeader.partitionCount * sizeof(PartitionHeader*))`
request in `main`: the signed `int32_t` count is converted to `size_t`
(two's complement, modulo 2^64) and multiplied by the 8-byte pointer size,
in `size_t` arithmetic. -/
def partHeadersAllocSize (count : Int) : Nat :=
  ((count * 8) % (U64 : Int)).toNat

/-- The `-e`/`-o` extraction path of `main`, after the container file has
been opened: returns `(exit code, output directory created?, records read)`.
Order of operations mirrors the source: file-size check, then directory
creation, then header decode, then the `partHeaders` array allocation
(which fails — exit 1 — when the converted request exceeds `PTRDIFF_MAX`,
as it does for every negative `partitionCount`), then the record walk
(`partitionCount` iterations of `readPartitionHeader`), then extraction. -/
def runExtraction (pac : List Nat) : Nat × Bool × List (PartitionHeader × Nat) :=
  if pac.length < PAC_HEADER_SIZE then (1, false, [])
  else if PTRDIFF_MAX < partHeadersAllocSize (readPacHeader pac).partitionCount then
    (1, true, [])
  else
    match readRecordsFrom pac (readPacHeader pac).partitionsListStart
        (readPacHeader pac).partitionCount.toNat with
    | none => (1, true, [])
    | some recs => (extractAllCode pac (recs.map Prod.fst), true, recs)

/-- Observable outcome of `main`'s argument dispatch. -/
structure MainResult where
  exitCode : Nat
  usagePrinted : Bool
  versionPrinted : Bool
deriving DecidableEq

/-- `main`'s dispatch on `argv` (including `argv[0]`), paired with the byte
content of the container file for the extraction branch.  The C source
checks `argc < 5` first and exits with `EXIT_FAILURE` after printing usage;
only invocations with at least 5 arguments reach the `-h` / `-v` / `-e`
comparisons. -/
def pacMain (args : List String) (pac : List Nat) : MainResult :=
  if args.length < 5 then ⟨1, true, false⟩
  else if args.getD 1 "" = "-h" then ⟨0, true, false⟩
  else if args.getD 1 "" = "-v" then ⟨0, false, true⟩
  else if args.getD 1 "" = "-e" ∧ args.getD 3 "" = "-o" then
    ⟨(runExtraction pac).1, false, false⟩
  else ⟨1, true, false⟩

/-- A 1220-byte container whose `partitionCount` field (bytes 1076..1079)
holds the two's-complement encoding of -1, with `partitionsListStart` 0. -/
def pacNegCount : List Nat :=
  List.replicate 1076 0 ++ [255, 255, 255, 255] ++ List.replicate 140 0

/-- A container holding one 8-byte record (length prefix 8) followed by a
4-byte record (length prefix 4). -/
def pacTwoRecords : List Nat := [8, 0, 0, 0, 1, 2, 3, 4, 4, 0, 0, 0]

/-- A 5-byte container used as payload source for a small extraction. -/
def pacSmall : List Nat := [9, 8, 7, 6, 5]

/-- A record whose 3-byte payload starts at offset 2 of `pacSmall`. -/
def phSmall : PartitionHeader := ⟨0, [], [], 3, 2⟩

/-- A 4-byte container that is too short for the payload of `phTrunc`. -/
def pacTrunc : List Nat := [9, 8, 7, 6]

/-- A record claiming a 5-byte payload at offset 2 (only 2 bytes remain in
`pacTrunc`). -/
def phTrunc : PartitionHeader := ⟨0, [], [], 5, 2⟩

/-- A record with `partitionSize = 0`. -/
def phZero : PartitionHeader := ⟨0, [], [], 0, 0⟩

/-! ## Helper lemmas about the embedded operations -/

theorem extractLoop_ok_spec (pac : List Nat) :
    ∀ sizeLeft pos sizeRead file reports f r,
      extractLoop pac pos sizeLeft sizeRead file reports = .ok (f, r) →
      f = file ++ (pac.drop pos).take sizeLeft ∧
      (0 < sizeLeft → pos + sizeLeft ≤ pac.length) := by
  intro sizeLeft
  induction sizeLeft using Nat.strong_induction_on with
  | _ sizeLeft ih =>
    intro pos sizeRead file reports f r h
    rw [extractLoop] at h
    by_cases h0 : sizeLeft = 0
    · rw [dif_pos h0] at h
      subst h0
      injection h with h1
      injection h1 with hf hr
      simp [← hf]
    · rw [dif_neg h0] at h
      by_cases hle : pos + min sizeLeft BUFFER_SIZE ≤ pac.length
      · rw [if_pos hle] at h
        have hc1 : 0 < min sizeLeft BUFFER_SIZE := by
          have : 0 < BUFFER_SIZE := by norm_num [BUFFER_SIZE]
          omega
        have hclt : sizeLeft - min sizeLeft BUFFER_SIZE < sizeLeft := by omega
        obtain ⟨hf, hlen⟩ := ih _ hclt _ _ _ _ _ _ h
        set c := min sizeLeft BUFFER_SIZE with hc
        constructor
        · rw [hf]
          have h2 : (pac.drop pos).take sizeLeft =
              (pac.drop pos).take (c + (sizeLeft - c)) := by
            congr 1
            omega
          have h3 : ((pac.drop pos).drop c) = pac.drop (pos + c) := by
            rw [List.drop_drop]
          rw [h2, List.take_add, h3, List.append_assoc]
        · intro _
          by_cases hz : sizeLeft - c = 0
          · omega
          · have := hlen (by omega)
            omega
      · rw [if_neg hle] at h
        exact absurd h (by simp)

theorem extractLoop_error_spec (pac : List Nat) :
    ∀ sizeLeft pos sizeRead file reports f r,
      extractLoop pac pos sizeLeft sizeRead file reports = .error (f, r) →
      ∃ k, k < sizeLeft ∧ f = file ++ (pac.drop pos).take k ∧
        (k = 0 ∨ pos + k ≤ pac.length) ∧
        pac.length < pos + k + min (sizeLeft - k) BUFFER_SIZE := by
  intro sizeLeft
  induction sizeLeft using Nat.strong_induction_on with
  | _ sizeLeft ih =>
    intro pos sizeRead file reports f r h
    rw [extractLoop] at h
    by_cases h0 : sizeLeft = 0
    · rw [dif_pos h0] at h
      exact absurd h (by simp)
    · rw [dif_neg h0] at h
      have hc1 : 0 < min sizeLeft BUFFER_SIZE := by
        have : 0 < BUFFER_SIZE := by norm_num [BUFFER_SIZE]
        omega
      by_cases hle : pos + min sizeLeft BUFFER_SIZE ≤ pac.length
      · rw [if_pos hle] at h
        obtain ⟨k', hk1, hk2, hk3, hk4⟩ := ih (sizeLeft - min sizeLeft BUFFER_SIZE)
          (by omega) _ _ _ _ _ _ h
        set c := min sizeLeft BUFFER_SIZE with hc
        refine ⟨c + k', by omega, ?_, ?_, ?_⟩
        · rw [hk2]
          have h2 : (pac.drop pos).take (c + k') =
              (pac.drop pos).take c ++ ((pac.drop pos).drop c).take k' :=
            List.take_add _ _ _
          have h3 : ((pac.drop pos).drop c) = pac.drop (pos + c) := by
            rw [List.drop_drop]
          rw [h2, h3, List.append_assoc]
        · right
          rcases hk3 with hk3 | hk3
          · omega
          · omega
        · have h4 : sizeLeft - c - k' = sizeLeft - (c + k') := by omega
          rw [h4] at hk4
          omega
      · rw [if_neg hle] at h
        injection h with h1
        injection h1 with hf hr
        refine ⟨0, by omega, by simp [← hf], Or.inl rfl, ?_⟩
        omega

theorem extractLoop_reports_spec (pac : List Nat) (total : Nat) :
    ∀ sizeLeft pos sizeRead file reports,
      sizeRead + sizeLeft = total →
      List.Chain' (· < ·) reports →
      (∀ x ∈ reports, x ≤ sizeRead) →
      (∀ f r, extractLoop pac pos sizeLeft sizeRead file reports = .ok (f, r) →
          List.Chain' (· < ·) r ∧ (∀ x ∈ r, x ≤ total) ∧
          (sizeLeft = 0 → r = reports) ∧
          (0 < sizeLeft → r.getLast? = some total)) ∧
      (∀ f r, extractLoop pac pos sizeLeft sizeRead file reports = .error (f, r) →
          List.Chain' (· < ·) r ∧ (∀ x ∈ r, x ≤ total)) := by
  intro sizeLeft
  induction sizeLeft using Nat.strong_induction_on with
  | _ sizeLeft ih =>
    intro pos sizeRead file reports htot hchain hbound
    by_cases h0 : sizeLeft = 0
    · subst h0
      constructor
      · intro f r h
        rw [extractLoop, dif_pos rfl] at h
        injection h with h1
        injection h1 with hf hr
        subst hr
        refine ⟨hchain, ?_, fun _ => rfl, fun hlt => absurd hlt (by omega)⟩
        intro x hx
        have := hbound x hx
        omega
      · intro f r h
        rw [extractLoop, dif_pos rfl] at h
        exact absurd h (by simp)
    · have hc1 : 0 < min sizeLeft BUFFER_SIZE := by
        have : 0 < BUFFER_SIZE := by norm_num [BUFFER_SIZE]
        omega
      by_cases hle : pos + min sizeLeft BUFFER_SIZE ≤ pac.length
      · set c := min sizeLeft BUFFER_SIZE with hc
        have hcle : c ≤ sizeLeft := by omega
        have hchain' : List.Chain' (· < ·) (reports ++ [sizeRead + c]) := by
          rw [List.chain'_append]
          refine ⟨hchain, List.chain'_singleton _, ?_⟩
          intro x hx y hy
          simp only [List.head?_cons, Option.mem_def, Option.some.injEq] at hy
          subst hy
          have := hbound x (List.mem_of_mem_getLast? hx)
          omega
        have hbound' : ∀ x ∈ reports ++ [sizeRead + c], x ≤ sizeRead + c := by
          intro x hx
          rcases List.mem_append.1 hx with hx | hx
          · have := hbound x hx
            omega
          · simp at hx
            omega
        have htot' : (sizeRead + c) + (sizeLeft - c) = total := by omega
        obtain ⟨hok, herr⟩ := ih (sizeLeft - c) (by omega) (pos + c) (sizeRead + c)
          (file ++ (pac.drop pos).take c) (reports ++ [sizeRead + c]) htot' hchain' hbound'
        constructor
        · intro f r h
          rw [extractLoop, dif_neg h0, if_pos hle, ← hc] at h
          obtain ⟨hch, hbd, hz, hlast⟩ := hok f r h
          refine ⟨hch, hbd, fun h00 => absurd h00 h0, ?_⟩
          intro _
          by_cases hz2 : sizeLeft - c = 0
          · rw [hz hz2, List.getLast?_concat]
            have : sizeRead + c = total := by omega
            rw [this]
          · exact hlast (by omega)
        · intro f r h
          rw [extractLoop, dif_neg h0, if_pos hle, ← hc] at h
          exact herr f r h
      · constructor
        · intro f r h
          rw [extractLoop, dif_neg h0, if_neg hle] at h
          exact absurd h (by simp)
        · intro f r h
          rw [extractLoop, dif_neg h0, if_neg hle] at h
          injection h with h1
          injection h1 with hf hr
          subst hr
          refine ⟨hchain, ?_⟩
          intro x hx
          have := hbound x hx
          omega

theorem le32SignedAt_lower_bound (buf : List Nat) (off : Nat) :
    -2147483648 ≤ le32SignedAt buf off := by
  rw [le32SignedAt]
  split
  · omega
  · omega

theorem readRecordsFrom_zero (pac : List Nat) (pos : Nat) :
    readRecordsFrom pac pos 0 = some [] := rfl

theorem readRecordsFrom_succ (pac : List Nat) (pos n : Nat) :
    readRecordsFrom pac pos (n + 1) =
      match readPartitionHeader pac pos with
      | none => none
      | some (ph, next) =>
        match readRecordsFrom pac next n with
        | none => none
        | some rest => some ((ph, pos) :: rest) := rfl

theorem readRecordsFrom_length (pac : List Nat) :
    ∀ n pos recs, readRecordsFrom pac pos n = some recs → recs.length = n := by
  intro n
  induction n with
  | zero =>
    intro pos recs h
    rw [readRecordsFrom] at h
    injection h with h1
    rw [← h1]
    rfl
  | succ n ihn =>
    intro pos recs h
    rw [readRecordsFrom_succ] at h
    rcases h1 : readPartitionHeader pac pos with _ | ⟨ph, nx⟩
    · rw [h1] at h
      exact absurd h (by simp)
    · rw [h1] at h
      dsimp only at h
      rcases h2 : readRecordsFrom pac nx n with _ | rest
      · rw [h2] at h
        exact absurd h (by simp)
      · rw [h2] at h
        injection h with h3
        rw [← h3]
        simp [ihn nx rest h2]

theorem extractPartition_small_eval :
    extractPartition pacSmall phSmall = .ok (some ([7, 6, 5], [3])) := by
  rw [extractPartition]
  norm_num [phSmall]
  rw [extractLoop]
  norm_num [BUFFER_SIZE, pacSmall]
  rw [extractLoop]
  norm_num

theorem extractPartition_trunc_eval :
    extractPartition pacTrunc phTrunc = .error ([], []) := by
  rw [extractPartition]
  norm_num [phTrunc]
  rw [extractLoop]
  norm_num [BUFFER_SIZE, pacTrunc]

/-! ## Claim theorems -/

set_option maxRecDepth 4000 in
/-- Claim C1 (code bug): the spec requires `getString` to write at most
`maxOutputLength` bytes, enforced by counting bytes written; the source's
check compares a pointer to itself and never fires.  Evaluating the embedded
`getString` on a field of 300 non-zero code units produces 300 output bytes,
exceeding the 255-byte bound the source's own comment claims to enforce,
and no excess input is dropped. -/
theorem getString_bound_check_never_fires :
    (getString (List.replicate 300 1)).length = 300 ∧
    255 < (getString (List.replicate 300 1)).length ∧
    getString (List.replicate 300 1) = List.replicate 300 1 := by
  refine ⟨by decide, by decide, by decide⟩

/-- Claim C2: whenever `readPartitionHeader` succeeds at offset `off` and the
4-byte prefix there reads `L`, the returned next offset is `off + L` (the
container being below the 32-bit address space, as its offsets are 32-bit);
consequently a two-record walk reads record 1 at `off` and record 2 at
exactly `off + L`. -/
theorem readPartitionHeader_nextOffset (pac : List Nat) (off L : Nat)
    (hsz : pac.length < U32)
    (hL : readLE32 pac off = some L)
    (hok : (readPartitionHeader pac off).isSome = true) :
    (readPartitionHeader pac off).map Prod.snd = some (off + L) ∧
    ∀ recs, readRecordsFrom pac off 2 = some recs →
      recs.map Prod.snd = [off, off + L] := by
  have hdef : readPartitionHeader pac off =
      if off + L ≤ pac.length then
        some (parseRecord ((pac.drop off).take L), (off + L) % U32) else none := by
    rw [readPartitionHeader, hL]
  by_cases hle : off + L ≤ pac.length
  · have hmod : (off + L) % U32 = off + L := Nat.mod_eq_of_lt (by omega)
    have h1 : readPartitionHeader pac off =
        some (parseRecord ((pac.drop off).take L), off + L) := by
      rw [hdef, if_pos hle, hmod]
    constructor
    · rw [h1]
      rfl
    · intro recs hrecs
      rw [show (2 : Nat) = 1 + 1 from rfl, readRecordsFrom_succ, h1] at hrecs
      dsimp only at hrecs
      rcases h2 : readPartitionHeader pac (off + L) with _ | ⟨ph2, nx⟩
      · rw [show (1 : Nat) = 0 + 1 from rfl, readRecordsFrom_succ, h2] at hrecs
        exact absurd hrecs (by simp)
      · rw [show (1 : Nat) = 0 + 1 from rfl, readRecordsFrom_succ, h2] at hrecs
        dsimp only at hrecs
        rw [readRecordsFrom_zero] at hrecs
        injection hrecs with h3
        rw [← h3]
        rfl
  · rw [hdef, if_neg hle] at hok
    exact absurd hok (by simp)

/-- Witness for C2 on a concrete container: the first record's prefix reads
8 and the reader succeeds, returning next offset 0 + 8. -/
theorem readPartitionHeader_nextOffset_witness :
    pacTwoRecords.length < U32 ∧ readLE32 pacTwoRecords 0 = some 8 ∧
    (readPartitionHeader pacTwoRecords 0).isSome = true ∧
    (readPartitionHeader pacTwoRecords 0).map Prod.snd = some (0 + 8) :=
  ⟨by decide, rfl, rfl,
    (readPartitionHeader_nextOffset pacTwoRecords 0 8 (by decide) rfl rfl).1⟩

/-- Claim C3: a successful streaming extraction produces exactly
`partitionSize` bytes, equal to the container bytes starting at
`partitionAddrInPac` (the copy itself proceeding in chunks of
`min remaining BUFFER_SIZE` by definition of `extractLoop`). -/
theorem extractPartition_ok_content (pac : List Nat) (ph : PartitionHeader)
    (file reports : List Nat)
    (h : extractPartition pac ph = .ok (some (file, reports))) :
    file.length = ph.partitionSize ∧
    file = (pac.drop ph.partitionAddrInPac).take ph.partitionSize := by
  rw [extractPartition] at h
  by_cases h0 : ph.partitionSize = 0
  · rw [if_pos h0] at h
    exact absurd h (by simp)
  · rw [if_neg h0] at h
    rcases hL : extractLoop pac ph.partitionAddrInPac ph.partitionSize 0 [] [] with e | res
    · rw [hL] at h
      exact absurd h (by simp)
    · rw [hL] at h
      injection h with h1
      injection h1 with h2
      rw [h2] at hL
      obtain ⟨hf, hlen⟩ := extractLoop_ok_spec pac ph.partitionSize
        ph.partitionAddrInPac 0 [] [] file reports hL
      have hle := hlen (by omega)
      constructor
      · rw [hf]
        simp [List.length_take, List.length_drop]
        omega
      · simpa using hf

/-- Witness for C3: extracting the 3-byte payload at offset 2 of `pacSmall`
yields exactly the bytes `[7, 6, 5]`, of length `partitionSize`. -/
theorem extractPartition_ok_content_witness :
    extractPartition pacSmall phSmall = Except.ok (some ([7, 6, 5], [3])) ∧
    ([7, 6, 5] : List Nat).length = phSmall.partitionSize :=
  ⟨extractPartition_small_eval,
    (extractPartition_ok_content pacSmall phSmall [7, 6, 5] [3]
      extractPartition_small_eval).1⟩

/-- Claim C4 (code bug): the spec requires a record whose declared length is
below the minimum fixed-field size (1568 bytes) to be rejected as malformed;
the embedded `readPartitionHeader` instead succeeds on a record of declared
length 4 and interprets `partitionSize` from bytes that were never read
(heap memory past the 4-byte allocation in the C source, modelled as 0). -/
theorem readPartitionHeader_accepts_short_record :
    4 < PARTITION_HEADER_MIN_SIZE ∧
    (readPartitionHeader [4, 0, 0, 0] 0).isSome = true ∧
    (readPartitionHeader [4, 0, 0, 0] 0).map (fun p => p.1.partitionSize) =
      some 0 := by
  refine ⟨by norm_num [PARTITION_HEADER_MIN_SIZE], rfl, rfl⟩

/-- Claim C5: before walking any partition records the driver rejects a
negative `partitionCount`, transitioning to the failed exit without reading
a single record — the negative `int32_t` converts to a `size_t` allocation
request above `PTRDIFF_MAX`, which `malloc` deterministically refuses — and
`partitionCount` bounds the number of records read (at most
`partitionCount.toNat` records are ever walked). -/
theorem runExtraction_negative_count_failed (pac : List Nat)
    (hlen : PAC_HEADER_SIZE ≤ pac.length) :
    ((readPacHeader pac).partitionCount < 0 →
        runExtraction pac = (1, true, [])) ∧
    (runExtraction pac).2.2.length ≤ (readPacHeader pac).partitionCount.toNat := by
  have hnot : ¬ pac.length < PAC_HEADER_SIZE := by omega
  constructor
  · intro hneg
    have hlow : -2147483648 ≤ (readPacHeader pac).partitionCount :=
      le32SignedAt_lower_bound pac 1076
    have halloc : PTRDIFF_MAX < partHeadersAllocSize (readPacHeader pac).partitionCount := by
      rw [partHeadersAllocSize, PTRDIFF_MAX, U64]
      omega
    rw [runExtraction, if_neg hnot, if_pos halloc]
  · rw [runExtraction, if_neg hnot]
    by_cases halloc : PTRDIFF_MAX < partHeadersAllocSize (readPacHeader pac).partitionCount
    · rw [if_pos halloc]
      simp
    · rw [if_neg halloc]
      rcases hr : readRecordsFrom pac (readPacHeader pac).partitionsListStart
          (readPacHeader pac).partitionCount.toNat with _ | recs
      · simp [hr]
      · have := readRecordsFrom_length pac _ _ _ hr
        simp [hr, this]

set_option maxRecDepth 10000 in
/-- Witness for C5: the concrete 1220-byte container with
`partitionCount = -1` is rejected with exit code 1 and no records read. -/
theorem runExtraction_negative_count_failed_witness :
    PAC_HEADER_SIZE ≤ pacNegCount.length ∧
    (readPacHeader pacNegCount).partitionCount < 0 ∧
    runExtraction pacNegCount = (1, true, []) :=
  ⟨by decide, by decide,
    (runExtraction_negative_count_failed pacNegCount (by decide)).1 (by decide)⟩

/-- Claim C6 (code bug): the spec says `tool -h` prints usage and exits 0,
and the source has a dedicated `-h` branch doing exactly that — but the
`argc < 5` guard runs first, so the two-argument invocation
`pacextractor -h` prints usage and exits 1; the success branch is only
reachable with at least 5 arguments. -/
theorem pacMain_h_exits_with_failure :
    pacMain ["pacextractor", "-h"] [] = ⟨1, true, false⟩ ∧
    pacMain ["pacextractor", "-h", "f.pac", "-o", "out"] [] = ⟨0, true, false⟩ :=
  ⟨rfl, rfl⟩

/-- Claim C7: a record with `partitionSize = 0` makes extraction an
immediate successful no-op: no output file is produced and no error is
raised. -/
theorem extractPartition_zero_size_noop (pac : List Nat) (ph : PartitionHeader)
    (h : ph.partitionSize = 0) : extractPartition pac ph = .ok none := by
  rw [extractPartition, if_pos h]

/-- Witness for C7 at a concrete zero-size record. -/
theorem extractPartition_zero_size_noop_witness :
    phZero.partitionSize = 0 ∧ extractPartition [] phZero = Except.ok none :=
  ⟨rfl, extractPartition_zero_size_noop [] phZero rfl⟩

/-- Claim C8: a container shorter than the fixed header size is rejected
(exit code 1) before the output directory is created. -/
theorem runExtraction_short_file_rejected (pac : List Nat)
    (h : pac.length < PAC_HEADER_SIZE) : runExtraction pac = (1, false, []) := by
  rw [runExtraction, if_pos h]

/-- Witness for C8 at the empty container. -/
theorem runExtraction_short_file_rejected_witness :
    ([] : List Nat).length < PAC_HEADER_SIZE ∧ runExtraction [] = (1, false, []) :=
  ⟨by norm_num [PAC_HEADER_SIZE],
    runExtraction_short_file_rejected [] (by norm_num [PAC_HEADER_SIZE])⟩

/-- Claim C9: when streaming extraction fails, it failed on the first chunk
that could not be fully read (`pac.length < pos + k + min (size - k)
BUFFER_SIZE`), the operation ends there with fewer than `partitionSize`
bytes copied (no retry or resume), and the partial output file — exactly the
`k` source bytes copied before the failure — is left as-is (no rollback). -/
theorem extractPartition_short_read_fatal (pac : List Nat) (ph : PartitionHeader)
    (file reports : List Nat)
    (h : extractPartition pac ph = .error (file, reports)) :
    ∃ k, k < ph.partitionSize ∧
      file = (pac.drop ph.partitionAddrInPac).take k ∧ file.length = k ∧
      pac.length < ph.partitionAddrInPac + k + min (ph.partitionSize - k) BUFFER_SIZE := by
  rw [extractPartition] at h
  by_cases h0 : ph.partitionSize = 0
  · rw [if_pos h0] at h
    exact absurd h (by simp)
  · rw [if_neg h0] at h
    rcases hL : extractLoop pac ph.partitionAddrInPac ph.partitionSize 0 [] [] with e | res
    · rw [hL] at h
      injection h with h1
      rw [h1] at hL
      obtain ⟨k, hk1, hk2, hk3, hk4⟩ := extractLoop_error_spec pac ph.partitionSize
        ph.partitionAddrInPac 0 [] [] file reports hL
      refine ⟨k, hk1, by simpa using hk2, ?_, hk4⟩
      rcases hk3 with hk3 | hk3
      · rw [hk2, hk3]
        rfl
      · rw [hk2]
        simp [List.length_take, List.length_drop]
        omega
    · rw [hL] at h
      exact absurd h (by simp)

/-- Witness for C9: a 5-byte payload claimed at offset 2 of a 4-byte
container fails on its first chunk, leaving an empty partial file. -/
theorem extractPartition_short_read_fatal_witness :
    extractPartition pacTrunc phTrunc = Except.error ([], []) ∧
    ∃ k, k < phTrunc.partitionSize ∧
      ([] : List Nat) = (pacTrunc.drop phTrunc.partitionAddrInPac).take k ∧
      ([] : List Nat).length = k ∧
      pacTrunc.length < phTrunc.partitionAddrInPac + k +
        min (phTrunc.partitionSize - k) BUFFER_SIZE :=
  ⟨extractPartition_trunc_eval,
    extractPartition_short_read_fatal pacTrunc phTrunc [] []
      extractPartition_trunc_eval⟩

/-- Claim C10: the loop invariant `dataSizeRead + dataSizeLeft =
partitionSize` makes every progress report at most `partitionSize`, the
reports strictly increasing, and — on a successful extraction — the final
report equal to `partitionSize`; failed runs also only report values within
the bound. -/
theorem extractPartition_progress (pac : List Nat) (ph : PartitionHeader) :
    (∀ file reports, extractPartition pac ph = .ok (some (file, reports)) →
        List.Chain' (· < ·) reports ∧ (∀ x ∈ reports, x ≤ ph.partitionSize) ∧
        reports.getLast? = some ph.partitionSize) ∧
    (∀ file reports, extractPartition pac ph = .error (file, reports) →
        List.Chain' (· < ·) reports ∧ ∀ x ∈ reports, x ≤ ph.partitionSize) := by
  obtain ⟨hok, herr⟩ := extractLoop_reports_spec pac ph.partitionSize ph.partitionSize
    ph.partitionAddrInPac 0 [] [] (by omega) List.chain'_nil (by simp)
  constructor
  · intro file reports h
    rw [extractPartition] at h
    by_cases h0 : ph.partitionSize = 0
    · rw [if_pos h0] at h
      exact absurd h (by simp)
    · rw [if_neg h0] at h
      rcases hL : extractLoop pac ph.partitionAddrInPac ph.partitionSize 0 [] [] with e | res
      · rw [hL] at h
        exact absurd h (by simp)
      · rw [hL] at h
        injection h with h1
        injection h1 with h2
        rw [h2] at hL
        obtain ⟨hch, hbd, _, hlast⟩ := hok file reports hL
        exact ⟨hch, hbd, hlast (by omega)⟩
  · intro file reports h
    rw [extractPartition] at h
    by_cases h0 : ph.partitionSize = 0
    · rw [if_pos h0] at h
      exact absurd h (by simp)
    · rw [if_neg h0] at h
      rcases hL : extractLoop pac ph.partitionAddrInPac ph.partitionSize 0 [] [] with e | res
      · rw [hL] at h
        injection h with h1
        rw [h1] at hL
        exact herr file reports hL
      · rw [hL] at h
        exact absurd h (by simp)

/-- Witness for C10: the single progress report of the small successful
extraction is its own last report and equals `partitionSize`. -/
theorem extractPartition_progress_witness :
    extractPartition pacSmall phSmall = Except.ok (some ([7, 6, 5], [3])) ∧
    ([3] : List Nat).getLast? = some phSmall.partitionSize :=
  ⟨extractPartition_small_eval,
    ((extractPartition_progress pacSmall phSmall).1 [7, 6, 5] [3]
      extractPartition_small_eval).2.2⟩

end PacExtractor
